import Mathlib

/-!
Verification of the atomic file-commit engine of `llmtools-go`
(`internal/fileutil.WriteFileAtomicBytes`).

The filesystem is modelled as an association list from paths (lists of
components) to entries.  Every fallible OS primitive the engine uses
(CreateTemp, Write, Sync, Close, Rename, Link, OpenFile with O_EXCL, Copy,
Chmod) is driven by an `Oracle` that decides, per call site, whether the
primitive succeeds or fails, and with which underlying error.  Concurrent
interference between the pre-check and the commit (another writer creating
the destination) is modelled by two oracle-supplied race insertions, one
before the commit step and one before the exclusive-create fallback.

`writeFileAtomicBytes` below is a line-by-line shallow embedding of the Go
function: validation, staging with cleanup, and the four platform/flag
commit strategies (POSIX rename, Windows retry loop, POSIX hardlink with
exclusive-create fallback, Windows no-overwrite rename).
-/

namespace Fileutil

/-- A filesystem path, as its list of components (already normalized). -/
abbrev Path := List String

/-- A directory entry, as seen by `lstat` (symlinks are not followed). -/
inductive FSEntry where
  | regular (content : List Nat) (perm : Nat)
  | directory
  | symlink (target : Path)
  | other
  deriving DecidableEq, Repr

/-- Filesystem state: an association list from paths to entries. -/
abbrev FS := List (Path × FSEntry)

/-- Entry at a path, without following symlinks (Go `os.Lstat`). -/
def fsLookup : FS → Path → Option FSEntry
  | [], _ => none
  | (q, e) :: rest, p => if q = p then some e else fsLookup rest p

/-- Delete every binding of a path (Go `os.Remove`). -/
def fsRemove : FS → Path → FS
  | [], _ => []
  | (q, e) :: rest, p => if q = p then fsRemove rest p else (q, e) :: fsRemove rest p

/-- Create or replace the entry at a path. -/
def fsInsert (fs : FS) (p : Path) (e : FSEntry) : FS :=
  (p, e) :: fsRemove fs p

/-- Set the permission bits of a regular file (Go `os.Chmod` on the paths on
which the engine ever applies it). -/
def fsChmod (fs : FS) (p : Path) (perm : Nat) : FS :=
  match fsLookup fs p with
  | some (.regular c _) => fsInsert fs p (.regular c perm)
  | _ => fs

/-- Atomic rename: the entry at `src` replaces whatever is at `dst`
(Go `os.Rename` on success). -/
def fsMove (fs : FS) (src dst : Path) : FS :=
  match fsLookup fs src with
  | some e => fsRemove (fsInsert fs dst e) src
  | none => fs

/-- Failure kinds of the engine (the taxonomy of the typed errors the Go
function returns; `ioError` carries the underlying OS error). -/
inductive WErr where
  | invalidPath
  | symlinkInParent (component : Path)
  | destIsDirectory
  | invalidDestType
  | alreadyExists
  | shortWrite (n expected : Nat)
  | ioError (cause : String)
  deriving DecidableEq, Repr

/-- Is the entry at `q` a symbolic link? -/
def isSymlinkAt (fs : FS) (q : Path) : Bool :=
  match fsLookup fs q with
  | some (.symlink _) => true
  | _ => false

/-- All ancestor directories of a path, shortest first. -/
def ancestorChain (p : Path) : List Path :=
  (List.range p.length).map fun i => p.take (i + 1)

/-- Modelled from the spec: `VerifyDirNoSymlink` is called by
`WriteFileAtomicBytes` but its definition is not in `src/`.  Per the spec it
walks each ancestor directory component of the parent, inspects each entry
without following symlinks, and reports the first ancestor that is itself a
symbolic link (the offending path fragment).  Returns `some q` with `q` the
offending component, or `none` when the chain is symlink-free. -/
def verifyDirNoSymlink (fs : FS) (parent : Path) : Option Path :=
  (ancestorChain parent).find? (isSymlinkAt fs)

/-- The fault/interference oracle: one field per fallible primitive the Go
code calls, in program order.  `none` (resp. `false`) means the primitive
succeeds; `some e` makes it fail with underlying error `e`.  `raceEntry`
and `raceEntry2` model a concurrent writer creating the destination
between the pre-check and the commit, and between the failed hardlink and
the exclusive-create fallback. -/
structure Oracle where
  tmpName : Path
  createTempErr : Option String := none
  chmodTmpFails : Bool := false
  writeErr : Option String := none
  writeShort : Option Nat := none
  syncErr : Option String := none
  closeErr : Option String := none
  raceEntry : Option FSEntry := none
  raceEntry2 : Option FSEntry := none
  linkErr : Option String := none
  winNoRenameErr : Option String := none
  openExclErr : Option String := none
  openTmpErr : Option String := none
  copyErr : Option (Nat × String) := none
  outSyncErr : Option String := none
  outCloseErr : Option String := none
  posixRenameErr : Option String := none
  winRenameErr : Nat → Option String := fun _ => none
  chmodDestFails : Bool := false

/-- Result of one call: outcome, final filesystem, the sleep durations (ms)
performed by the Windows retry loop, and the number of rename attempts that
loop executed. -/
structure RunOut where
  res : Except WErr Unit
  fs : FS
  sleeps : List Nat
  attempts : Nat
  deriving Repr

/-- Destination validation (Go lines: `os.Lstat` on the destination, the
directory / non-regular / already-exists checks), returning the error it
raises, if any. -/
def validateDest (fs : FS) (p : Path) (overwrite : Bool) : Option WErr :=
  match fsLookup fs p with
  | none => none
  | some .directory => some .destIsDirectory
  | some .other => some .invalidDestType
  | some (.regular _ _) => if overwrite then none else some .alreadyExists
  | some (.symlink _) => if overwrite then none else some .alreadyExists

/-- The permission bits the staging file carries: `os.CreateTemp` creates it
with mode 0600 (= 384), then `tmp.Chmod(perm)` is applied with its error
discarded. -/
def tmpPerm (o : Oracle) (perm : Nat) : Nat :=
  if o.chmodTmpFails then 384 else perm

/-- The staging phase (Go: `os.CreateTemp`, `tmp.Chmod`, `tmp.Write`, the
short-write check, `tmp.Sync`, `tmp.Close`), with the `cleanup` closure
(close and remove the staging file) applied on every failure.  On failure
returns the error and the filesystem after cleanup; on success the
filesystem now holding the staged temp file. -/
def stage (o : Oracle) (fs : FS) (data : List Nat) (perm : Nat) :
    Except (WErr × FS) FS :=
  match o.createTempErr with
  | some e => .error (.ioError e, fs)
  | none =>
    let fs1 := fsInsert fs o.tmpName (.regular [] (tmpPerm o perm))
    match o.writeErr with
    | some e => .error (.ioError e, fsRemove fs1 o.tmpName)
    | none =>
      let n := match o.writeShort with
        | some k => min k data.length
        | none => data.length
      let fs2 := fsInsert fs1 o.tmpName (.regular (data.take n) (tmpPerm o perm))
      if n < data.length then
        .error (.shortWrite n data.length, fsRemove fs2 o.tmpName)
      else
        match o.syncErr with
        | some e => .error (.ioError e, fsRemove fs2 o.tmpName)
        | none =>
          match o.closeErr with
          | some e => .error (.ioError e, fsRemove fs2 o.tmpName)
          | none => .ok fs2

/-- The Windows no-overwrite commit (Go: plain `os.Rename`, which fails when
the destination exists; on failure an `os.Lstat` post-check classifies the
error as already-exists versus the original cause). -/
def commitNoOverwriteWindows (o : Oracle) (fs : FS) (p : Path) (perm : Nat) :
    RunOut :=
  if (fsLookup fs p).isSome then
    ⟨.error .alreadyExists, fsRemove fs o.tmpName, [], 0⟩
  else
    match o.winNoRenameErr with
    | some e => ⟨.error (.ioError e), fsRemove fs o.tmpName, [], 0⟩
    | none =>
      let fs1 := fsMove fs o.tmpName p
      ⟨.ok (), if o.chmodDestFails then fs1 else fsChmod fs1 p perm, [], 0⟩

/-- The POSIX no-overwrite commit (Go: `os.Link`, which fails with
`os.ErrExist` when the destination exists; on an unrelated link failure the
exclusive-create-and-copy fallback runs). -/
def commitNoOverwriteUnix (o : Oracle) (fs : FS) (p : Path) (perm : Nat) :
    RunOut :=
  if (fsLookup fs p).isSome then
    ⟨.error .alreadyExists, fsRemove fs o.tmpName, [], 0⟩
  else
    match o.linkErr with
    | none =>
      match fsLookup fs o.tmpName with
      | some e =>
        let fs1 := fsRemove (fsInsert fs p e) o.tmpName
        ⟨.ok (), if o.chmodDestFails then fs1 else fsChmod fs1 p perm, [], 0⟩
      | none => ⟨.ok (), fs, [], 0⟩
    | some _ =>
      let fsr := match o.raceEntry2 with
        | some e => if (fsLookup fs p).isSome then fs else fsInsert fs p e
        | none => fs
      if (fsLookup fsr p).isSome then
        ⟨.error .alreadyExists, fsRemove fsr o.tmpName, [], 0⟩
      else
        match o.openExclErr with
        | some e => ⟨.error (.ioError e), fsRemove fsr o.tmpName, [], 0⟩
        | none =>
          let fs1 := fsInsert fsr p (.regular [] perm)
          match o.openTmpErr with
          | some e =>
            ⟨.error (.ioError e), fsRemove (fsRemove fs1 p) o.tmpName, [], 0⟩
          | none =>
            let tmpContent := match fsLookup fs1 o.tmpName with
              | some (.regular c _) => c
              | _ => []
            match o.copyErr with
            | some (k, e) =>
              let fsp := fsInsert fs1 p (.regular (tmpContent.take k) perm)
              ⟨.error (.ioError e), fsRemove (fsRemove fsp p) o.tmpName, [], 0⟩
            | none =>
              let fs2 := fsInsert fs1 p (.regular tmpContent perm)
              match o.outSyncErr with
              | some e =>
                ⟨.error (.ioError e), fsRemove (fsRemove fs2 p) o.tmpName, [], 0⟩
              | none =>
                match o.outCloseErr with
                | some e =>
                  ⟨.error (.ioError e), fsRemove (fsRemove fs2 p) o.tmpName, [], 0⟩
                | none => ⟨.ok (), fsRemove fs2 o.tmpName, [], 0⟩

/-- Result of the Windows overwrite retry loop. -/
structure LoopOut where
  err : Option String
  fs : FS
  sleeps : List Nat
  attemptCount : Nat
  deriving Repr

/-- The body of the Windows overwrite retry loop over the remaining attempt
indices, carrying the loop variable `renameErr` (the last rename error;
`var renameErr error` in Go): try `os.Rename`; on success break; on failure
remove a still-present destination, sleep `15*(attempt+1)` ms, continue. -/
def winLoopAux (f : Nat → Option String) (tmp p : Path) :
    FS → Option String → List Nat → LoopOut
  | fs, renameErr, [] => ⟨renameErr, fs, [], 0⟩
  | fs, _, i :: rest =>
    match f i with
    | none => ⟨none, fsMove fs tmp p, [], 1⟩
    | some e =>
      let fs1 := if (fsLookup fs p).isSome then fsRemove fs p else fs
      let out := winLoopAux f tmp p fs1 (some e) rest
      ⟨out.err, out.fs, 15 * (i + 1) :: out.sleeps, out.attemptCount + 1⟩

/-- The Windows overwrite retry loop (Go: `for attempt := range 6`), which
returns the last rename error (or `none` on success), the filesystem, the
sleeps performed and the number of attempts executed. -/
def winLoop (f : Nat → Option String) (fs : FS) (tmp p : Path)
    (attempts : List Nat) : LoopOut :=
  winLoopAux f tmp p fs none attempts

/-- The overwrite commit: Windows runs the bounded retry loop and surfaces
the last rename error after cleanup; POSIX is a single atomic-replacing
`os.Rename`.  On success `os.Chmod(p, perm)` is applied best-effort. -/
def commitOverwrite (windows : Bool) (o : Oracle) (fs : FS) (p : Path)
    (perm : Nat) : RunOut :=
  if windows then
    let out := winLoop o.winRenameErr fs o.tmpName p [0, 1, 2, 3, 4, 5]
    match out.err with
    | some e =>
      ⟨.error (.ioError e), fsRemove out.fs o.tmpName, out.sleeps, out.attemptCount⟩
    | none =>
      ⟨.ok (), if o.chmodDestFails then out.fs else fsChmod out.fs p perm,
        out.sleeps, out.attemptCount⟩
  else
    match o.posixRenameErr with
    | some e => ⟨.error (.ioError e), fsRemove fs o.tmpName, [], 0⟩
    | none =>
      let fs1 := fsMove fs o.tmpName p
      ⟨.ok (), if o.chmodDestFails then fs1 else fsChmod fs1 p perm, [], 0⟩

/-- Shallow embedding of `WriteFileAtomicBytes(path, data, perm, overwrite)`
from `internal/fileutil`: normalize (modelled from the spec: reject the
empty path, paths here are already canonical), verify the parent chain is
symlink-free, validate the destination type, stage the payload in a temp
file, then commit by the platform/flag strategy.  `windows` is the
`runtime.GOOS == "windows"` test; `o` drives every fallible primitive. -/
def writeFileAtomicBytes (windows : Bool) (o : Oracle) (fs : FS) (path : Path)
    (data : List Nat) (perm : Nat) (overwrite : Bool) : RunOut :=
  if path = [] then ⟨.error .invalidPath, fs, [], 0⟩
  else
    match verifyDirNoSymlink fs path.dropLast with
    | some q => ⟨.error (.symlinkInParent q), fs, [], 0⟩
    | none =>
      match validateDest fs path overwrite with
      | some e => ⟨.error e, fs, [], 0⟩
      | none =>
        match stage o fs data perm with
        | .error (e, fs1) => ⟨.error e, fs1, [], 0⟩
        | .ok fs1 =>
          let fs2 := match o.raceEntry with
            | some e => if (fsLookup fs1 path).isSome then fs1 else fsInsert fs1 path e
            | none => fs1
          if overwrite then commitOverwrite windows o fs2 path perm
          else if windows then commitNoOverwriteWindows o fs2 path perm
          else commitNoOverwriteUnix o fs2 path perm

/-- The staging phase succeeds: no fault is injected into CreateTemp, Write,
Sync or Close, and the write is not short. -/
def stagingOK (o : Oracle) : Prop :=
  o.createTempErr = none ∧ o.writeErr = none ∧ o.writeShort = none ∧
    o.syncErr = none ∧ o.closeErr = none

instance (o : Oracle) : Decidable (stagingOK o) := by
  unfold stagingOK
  infer_instance

/-- The oracle injects no concurrent-writer interference. -/
def noRace (o : Oracle) : Prop :=
  o.raceEntry = none ∧ o.raceEntry2 = none

instance (o : Oracle) : Decidable (noRace o) := by
  unfold noRace
  infer_instance

/-- The staging name chosen by CreateTemp is unused and distinct from the
destination (CreateTemp guarantees an unused collision-resistant name). -/
def freshTmp (o : Oracle) (fs : FS) (p : Path) : Prop :=
  fsLookup fs o.tmpName = none ∧ o.tmpName ≠ p

instance (o : Oracle) (fs : FS) (p : Path) : Decidable (freshTmp o fs p) := by
  unfold freshTmp
  infer_instance

@[simp]
theorem fsLookup_nil (p : Path) : fsLookup [] p = none := rfl

theorem fsLookup_remove (fs : FS) (p q : Path) :
    fsLookup (fsRemove fs p) q = if q = p then none else fsLookup fs q := by
  induction fs with
  | nil => simp [fsRemove]
  | cons hd tl ih =>
    obtain ⟨r, e⟩ := hd
    by_cases hqp : q = p
    · subst hqp
      by_cases hrq : r = q
      · subst hrq
        simpa [fsRemove] using ih
      · simp [fsRemove, fsLookup, hrq, ih]
    · by_cases hrq : r = q
      · subst hrq
        simp [fsRemove, fsLookup, hqp]
      · by_cases hrp : r = p <;>
          simp [fsRemove, fsLookup, hqp, Ne.symm hqp, hrq, hrp, ih]

theorem fsLookup_insert (fs : FS) (p q : Path) (e : FSEntry) :
    fsLookup (fsInsert fs p e) q = if q = p then some e else fsLookup fs q := by
  by_cases hqp : q = p
  · simp [fsInsert, fsLookup, hqp]
  · simp [fsInsert, fsLookup, hqp, Ne.symm hqp, fsLookup_remove]

theorem fsRemove_eq_of_lookup_none (fs : FS) (p : Path) (h : fsLookup fs p = none) :
    fsRemove fs p = fs := by
  induction fs with
  | nil => rfl
  | cons hd tl ih =>
    obtain ⟨r, e⟩ := hd
    by_cases hrp : r = p
    · simp [fsLookup, hrp] at h
    · simp [fsLookup, hrp] at h
      simp [fsRemove, hrp, ih h]

theorem fsLookup_chmod (fs : FS) (p q : Path) (perm : Nat) :
    fsLookup (fsChmod fs p perm) q =
      match fsLookup fs p with
      | some (.regular c _) =>
          if q = p then some (.regular c perm) else fsLookup fs q
      | _ => fsLookup fs q := by
  unfold fsChmod
  cases hp : fsLookup fs p with
  | none => simp
  | some e =>
    cases e with
    | regular c pm => simp [fsLookup_insert]
    | directory => simp
    | symlink t => simp
    | other => simp

/-- With a fault-free staging oracle, `stage` returns the filesystem holding
the staged temp file with the full payload. -/
theorem stage_of_stagingOK (o : Oracle) (fs : FS) (data : List Nat) (perm : Nat)
    (h : stagingOK o) :
    stage o fs data perm =
      .ok (fsInsert (fsInsert fs o.tmpName (.regular [] (tmpPerm o perm)))
        o.tmpName (.regular data (tmpPerm o perm))) := by
  obtain ⟨h1, h2, h3, h4, h5⟩ := h
  simp [stage, h1, h2, h3, h4, h5, List.take_length]

/-- Inversion: whenever `stage` succeeds, the temp file holds exactly the
payload and every other path is untouched. -/
theorem stage_ok_inv (o : Oracle) (fs : FS) (data : List Nat) (perm : Nat)
    (fs1 : FS) (h : stage o fs data perm = .ok fs1) :
    fsLookup fs1 o.tmpName = some (.regular data (tmpPerm o perm)) ∧
      ∀ q, q ≠ o.tmpName → fsLookup fs1 q = fsLookup fs q := by
  unfold stage at h
  cases h1 : o.createTempErr with
  | some e1 => rw [h1] at h; exact absurd h (by simp)
  | none =>
  rw [h1] at h
  cases h2 : o.writeErr with
  | some e2 => rw [h2] at h; exact absurd h (by simp)
  | none =>
  rw [h2] at h
  simp only at h
  have hrest : ∀ n : Nat, n = data.length →
      (if n < data.length then
        Except.error (WErr.shortWrite n data.length,
          fsRemove (fsInsert (fsInsert fs o.tmpName
            (FSEntry.regular [] (tmpPerm o perm))) o.tmpName
            (FSEntry.regular (List.take n data) (tmpPerm o perm))) o.tmpName)
      else
        match o.syncErr with
        | some e =>
          Except.error (WErr.ioError e,
            fsRemove (fsInsert (fsInsert fs o.tmpName
              (FSEntry.regular [] (tmpPerm o perm))) o.tmpName
              (FSEntry.regular (List.take n data) (tmpPerm o perm))) o.tmpName)
        | none =>
          match o.closeErr with
          | some e =>
            Except.error (WErr.ioError e,
              fsRemove (fsInsert (fsInsert fs o.tmpName
                (FSEntry.regular [] (tmpPerm o perm))) o.tmpName
                (FSEntry.regular (List.take n data) (tmpPerm o perm))) o.tmpName)
          | none =>
            Except.ok (fsInsert (fsInsert fs o.tmpName
              (FSEntry.regular [] (tmpPerm o perm))) o.tmpName
              (FSEntry.regular (List.take n data) (tmpPerm o perm)))) =
        Except.ok fs1 →
      fsLookup fs1 o.tmpName = some (.regular data (tmpPerm o perm)) ∧
        ∀ q, q ≠ o.tmpName → fsLookup fs1 q = fsLookup fs q := by
    intro n hn hh
    subst hn
    rw [if_neg (lt_irrefl data.length)] at hh
    cases h4 : o.syncErr with
    | some e4 => rw [h4] at hh; exact absurd hh (by simp)
    | none =>
    rw [h4] at hh
    cases h5 : o.closeErr with
    | some e5 => rw [h5] at hh; exact absurd hh (by simp)
    | none =>
    rw [h5] at hh
    simp only [Except.ok.injEq] at hh
    subst hh
    constructor
    · simp [fsLookup_insert, List.take_length]
    · intro q hq
      simp [fsLookup_insert, fsLookup_remove, hq]
  cases h3 : o.writeShort with
  | none => rw [h3] at h; exact hrest data.length rfl h
  | some k =>
    rw [h3] at h
    by_cases hlt : min k data.length < data.length
    · rw [if_pos hlt] at h; exact absurd h (by simp)
    · exact hrest (min k data.length)
        (Nat.le_antisymm (Nat.min_le_right k data.length) (Nat.le_of_not_lt hlt)) h

/-- Inversion: whenever `stage` fails, the staging file is gone and every
other path is untouched (FS events: nothing happened, or the temp file was
created and then removed by `cleanup`). -/
theorem stage_error_inv (o : Oracle) (fs : FS) (data : List Nat) (perm : Nat)
    (e : WErr) (fs1 : FS) (h : stage o fs data perm = .error (e, fs1))
    (hfresh : fsLookup fs o.tmpName = none) :
    fsLookup fs1 o.tmpName = none ∧
      ∀ q, q ≠ o.tmpName → fsLookup fs1 q = fsLookup fs q := by
  have key : ∀ X : FS, fsRemove X o.tmpName = fs1 →
      (∀ q, q ≠ o.tmpName → fsLookup X q = fsLookup fs q) →
      fsLookup fs1 o.tmpName = none ∧
        ∀ q, q ≠ o.tmpName → fsLookup fs1 q = fsLookup fs q := by
    intro X hX hXq
    rw [← hX]
    refine ⟨by simp [fsLookup_remove], fun q hq => ?_⟩
    rw [fsLookup_remove, if_neg hq]
    exact hXq q hq
  unfold stage at h
  cases h1 : o.createTempErr with
  | some e1 =>
    rw [h1] at h
    simp only [Except.error.injEq, Prod.mk.injEq] at h
    rw [← h.2]
    exact ⟨hfresh, fun q _ => rfl⟩
  | none =>
  rw [h1] at h
  cases h2 : o.writeErr with
  | some e2 =>
    rw [h2] at h
    simp only [Except.error.injEq, Prod.mk.injEq] at h
    exact key _ h.2 (fun q hq => by simp [fsLookup_insert, hq])
  | none =>
  rw [h2] at h
  simp only at h
  have hrest : ∀ n : Nat,
      (if n < data.length then
        Except.error (WErr.shortWrite n data.length,
          fsRemove (fsInsert (fsInsert fs o.tmpName
            (FSEntry.regular [] (tmpPerm o perm))) o.tmpName
            (FSEntry.regular (List.take n data) (tmpPerm o perm))) o.tmpName)
      else
        match o.syncErr with
        | some e =>
          Except.error (WErr.ioError e,
            fsRemove (fsInsert (fsInsert fs o.tmpName
              (FSEntry.regular [] (tmpPerm o perm))) o.tmpName
              (FSEntry.regular (List.take n data) (tmpPerm o perm))) o.tmpName)
        | none =>
          match o.closeErr with
          | some e =>
            Except.error (WErr.ioError e,
              fsRemove (fsInsert (fsInsert fs o.tmpName
                (FSEntry.regular [] (tmpPerm o perm))) o.tmpName
                (FSEntry.regular (List.take n data) (tmpPerm o perm))) o.tmpName)
          | none =>
            Except.ok (fsInsert (fsInsert fs o.tmpName
              (FSEntry.regular [] (tmpPerm o perm))) o.tmpName
              (FSEntry.regular (List.take n data) (tmpPerm o perm)))) =
        Except.error (e, fs1) →
      fsLookup fs1 o.tmpName = none ∧
        ∀ q, q ≠ o.tmpName → fsLookup fs1 q = fsLookup fs q := by
    intro n hh
    by_cases hlt : n < data.length
    · rw [if_pos hlt] at hh
      simp only [Except.error.injEq, Prod.mk.injEq] at hh
      exact key _ hh.2 (fun q hq => by simp [fsLookup_insert, hq])
    · rw [if_neg hlt] at hh
      cases h4 : o.syncErr with
      | some e4 =>
        rw [h4] at hh
        simp only [Except.error.injEq, Prod.mk.injEq] at hh
        exact key _ hh.2 (fun q hq => by simp [fsLookup_insert, hq])
      | none =>
      rw [h4] at hh
      cases h5 : o.closeErr with
      | some e5 =>
        rw [h5] at hh
        simp only [Except.error.injEq, Prod.mk.injEq] at hh
        exact key _ hh.2 (fun q hq => by simp [fsLookup_insert, hq])
      | none => rw [h5] at hh; exact absurd hh (by simp)
  cases h3 : o.writeShort with
  | none => rw [h3] at h; exact hrest data.length h
  | some k => rw [h3] at h; exact hrest (min k data.length) h

theorem fsLookup_removeIf (fs : FS) (p q : Path) :
    fsLookup (if (fsLookup fs p).isSome then fsRemove fs p else fs) q =
      if q = p then none else fsLookup fs q := by
  by_cases hp : (fsLookup fs p).isSome
  · simp [hp, fsLookup_remove]
  · rw [if_neg hp]
    by_cases hqp : q = p
    · subst hqp
      simpa using Option.not_isSome_iff_eq_none.mp hp
    · simp [hqp]

theorem fsLookup_move (fs : FS) (tmp p q : Path) (e : FSEntry) (hne : tmp ≠ p)
    (htmp : fsLookup fs tmp = some e) :
    fsLookup (fsMove fs tmp p) q =
      if q = tmp then none else if q = p then some e else fsLookup fs q := by
  unfold fsMove
  rw [htmp]
  by_cases hqt : q = tmp
  · subst hqt
    simp [fsLookup_remove]
  · rw [fsLookup_remove, if_neg hqt, fsLookup_insert, if_neg hqt]

/-- Behaviour of the Windows overwrite retry loop body: on success the
staged entry has replaced the destination; when the loop ends with an error
the staged file is still present and, provided at least one attempt ran,
the destination has been proactively removed; no other path is touched. -/
theorem winLoopAux_spec (f : Nat → Option String) (tmp p : Path) (e : FSEntry)
    (hne : tmp ≠ p) (l : List Nat) :
    ∀ (fs : FS) (lastErr : Option String), fsLookup fs tmp = some e →
      (((winLoopAux f tmp p fs lastErr l).err = none →
          (l = [] ∧ lastErr = none ∧ (winLoopAux f tmp p fs lastErr l).fs = fs) ∨
          (fsLookup (winLoopAux f tmp p fs lastErr l).fs p = some e ∧
            fsLookup (winLoopAux f tmp p fs lastErr l).fs tmp = none)) ∧
        (∀ s, (winLoopAux f tmp p fs lastErr l).err = some s →
          fsLookup (winLoopAux f tmp p fs lastErr l).fs tmp = some e ∧
            (l = [] → (winLoopAux f tmp p fs lastErr l).fs = fs) ∧
            (l ≠ [] → fsLookup (winLoopAux f tmp p fs lastErr l).fs p = none)) ∧
        (∀ q, q ≠ p → q ≠ tmp →
          fsLookup (winLoopAux f tmp p fs lastErr l).fs q = fsLookup fs q)) := by
  induction l with
  | nil =>
    intro fs lastErr htmp
    refine ⟨fun hnone => Or.inl ⟨rfl, ?_, rfl⟩, fun s hs => ⟨htmp, fun _ => rfl,
      fun hl => absurd rfl hl⟩, fun q _ _ => rfl⟩
    simpa [winLoopAux] using hnone
  | cons i rest ih =>
    intro fs lastErr htmp
    cases hf : f i with
    | none =>
      simp only [winLoopAux, hf]
      refine ⟨fun _ => Or.inr ⟨?_, ?_⟩, fun s hs => by simp at hs, fun q hqp hqt => ?_⟩
      · rw [fsLookup_move fs tmp p p e hne htmp, if_neg (Ne.symm hne), if_pos rfl]
      · rw [fsLookup_move fs tmp p tmp e hne htmp, if_pos rfl]
      · rw [fsLookup_move fs tmp p q e hne htmp, if_neg hqt, if_neg hqp]
    | some s0 =>
      have htmp1 :
          fsLookup (if (fsLookup fs p).isSome then fsRemove fs p else fs) tmp =
            some e := by
        rw [fsLookup_removeIf, if_neg hne]
        exact htmp
      obtain ⟨ihnone, ihsome, ihq⟩ := ih _ (some s0) htmp1
      simp only [winLoopAux, hf]
      refine ⟨fun hnone => ?_, fun s hs => ?_, fun q hqp hqt => ?_⟩
      · rcases ihnone hnone with h | h
        · exact absurd h.2.1 (by simp)
        · exact Or.inr h
      · obtain ⟨ht, hfs0, hfsp⟩ := ihsome s hs
        refine ⟨ht, fun hl => by simp at hl, fun _ => ?_⟩
        cases rest with
        | nil =>
          rw [hfs0 rfl, fsLookup_removeIf, if_pos rfl]
        | cons j r =>
          exact hfsp (by simp)
      · rw [ihq q hqp hqt, fsLookup_removeIf, if_neg hqp]

/-- When every one of the six attempt indices fails, the loop executes all
six attempts, sleeps the six increasing backoffs, and reports the error of
the last attempt. -/
theorem winLoop_allFail (f : Nat → Option String) (fs : FS) (tmp p : Path)
    (hall : ∀ i, i < 6 → (f i).isSome) :
    (winLoop f fs tmp p [0, 1, 2, 3, 4, 5]).sleeps = [15, 30, 45, 60, 75, 90] ∧
      (winLoop f fs tmp p [0, 1, 2, 3, 4, 5]).attemptCount = 6 ∧
      (winLoop f fs tmp p [0, 1, 2, 3, 4, 5]).err = f 5 := by
  obtain ⟨e0, h0⟩ := Option.isSome_iff_exists.mp (hall 0 (by norm_num))
  obtain ⟨e1, h1⟩ := Option.isSome_iff_exists.mp (hall 1 (by norm_num))
  obtain ⟨e2, h2⟩ := Option.isSome_iff_exists.mp (hall 2 (by norm_num))
  obtain ⟨e3, h3⟩ := Option.isSome_iff_exists.mp (hall 3 (by norm_num))
  obtain ⟨e4, h4⟩ := Option.isSome_iff_exists.mp (hall 4 (by norm_num))
  obtain ⟨e5, h5⟩ := Option.isSome_iff_exists.mp (hall 5 (by norm_num))
  simp only [winLoop, winLoopAux, h0, h1, h2, h3, h4, h5]
  norm_num [h5]

/-- When the overwrite commit succeeds and the destination chmod is not
faulted, the destination holds the staged payload with the requested
permission bits. -/
theorem commitOverwrite_ok_state (windows : Bool) (o : Oracle) (fs : FS)
    (p : Path) (perm : Nat) (data : List Nat) (tp : Nat)
    (htmp : fsLookup fs o.tmpName = some (.regular data tp))
    (hne : o.tmpName ≠ p) (hchmod : o.chmodDestFails = false)
    (hsucc : (commitOverwrite windows o fs p perm).res = .ok ()) :
    fsLookup (commitOverwrite windows o fs p perm).fs p =
      some (.regular data perm) := by
  unfold commitOverwrite at hsucc ⊢
  by_cases hw : windows
  · rw [if_pos hw] at hsucc ⊢
    simp only [winLoop] at hsucc ⊢
    obtain ⟨ihnone, _, _⟩ :=
      winLoopAux_spec o.winRenameErr o.tmpName p _ hne [0, 1, 2, 3, 4, 5] fs none htmp
    cases he : (winLoopAux o.winRenameErr o.tmpName p fs none [0, 1, 2, 3, 4, 5]).err with
    | some s =>
      rw [he] at hsucc
      simp at hsucc
    | none =>
      simp only [he, hchmod, Bool.false_eq_true, if_false]
      rcases ihnone he with h | h
      · exact absurd h.1 (by simp)
      · rw [fsLookup_chmod, h.1]
        simp
  · rw [if_neg hw] at hsucc ⊢
    cases hr : o.posixRenameErr with
    | some s =>
      rw [hr] at hsucc
      simp at hsucc
    | none =>
      simp only [hchmod, Bool.false_eq_true, if_false]
      rw [fsLookup_chmod]
      rw [fsLookup_move fs o.tmpName p p _ hne htmp, if_neg (Ne.symm hne), if_pos rfl]
      simp [fsLookup_move fs o.tmpName p p _ hne htmp, Ne.symm hne]

/-- When the Windows no-overwrite commit succeeds, the destination holds the
staged payload. -/
theorem commitNoOverwriteWindows_ok_state (o : Oracle) (fs : FS) (p : Path)
    (perm : Nat) (data : List Nat) (tp : Nat)
    (htmp : fsLookup fs o.tmpName = some (.regular data tp))
    (hne : o.tmpName ≠ p)
    (hsucc : (commitNoOverwriteWindows o fs p perm).res = .ok ()) :
    ∃ pm, fsLookup (commitNoOverwriteWindows o fs p perm).fs p =
      some (.regular data pm) := by
  unfold commitNoOverwriteWindows at hsucc ⊢
  by_cases hp : (fsLookup fs p).isSome
  · rw [if_pos hp] at hsucc
    simp at hsucc
  · rw [if_neg hp] at hsucc ⊢
    cases hr : o.winNoRenameErr with
    | some s =>
      rw [hr] at hsucc
      simp at hsucc
    | none =>
      by_cases hc : o.chmodDestFails
      · refine ⟨tp, ?_⟩
        simp only [hc, if_true]
        rw [fsLookup_move fs o.tmpName p p _ hne htmp, if_neg (Ne.symm hne), if_pos rfl]
      · refine ⟨perm, ?_⟩
        simp only [hc, Bool.false_eq_true, if_false]
        rw [fsLookup_chmod]
        rw [fsLookup_move fs o.tmpName p p _ hne htmp, if_neg (Ne.symm hne), if_pos rfl]
        simp [fsLookup_move fs o.tmpName p p _ hne htmp, Ne.symm hne]

/-- When the POSIX no-overwrite commit succeeds with no race on the
exclusive-create fallback, the destination holds the staged payload. -/
theorem commitNoOverwriteUnix_ok_state (o : Oracle) (fs : FS) (p : Path)
    (perm : Nat) (data : List Nat) (tp : Nat)
    (htmp : fsLookup fs o.tmpName = some (.regular data tp))
    (hne : o.tmpName ≠ p) (hrace2 : o.raceEntry2 = none)
    (hsucc : (commitNoOverwriteUnix o fs p perm).res = .ok ()) :
    ∃ pm, fsLookup (commitNoOverwriteUnix o fs p perm).fs p =
      some (.regular data pm) := by
  unfold commitNoOverwriteUnix at hsucc ⊢
  by_cases hp : (fsLookup fs p).isSome
  · rw [if_pos hp] at hsucc
    simp at hsucc
  · rw [if_neg hp] at hsucc ⊢
    cases hl : o.linkErr with
    | none =>
      simp only [htmp]
      by_cases hc : o.chmodDestFails
      · refine ⟨tp, ?_⟩
        simp only [hc, if_true]
        rw [fsLookup_remove, if_neg (Ne.symm hne), fsLookup_insert, if_pos rfl]
      · refine ⟨perm, ?_⟩
        simp only [hc, Bool.false_eq_true, if_false]
        rw [fsLookup_chmod]
        rw [fsLookup_remove, if_neg (Ne.symm hne), fsLookup_insert, if_pos rfl]
        simp
    | some s =>
      rw [hl] at hsucc
      simp only [hrace2] at hsucc ⊢
      rw [if_neg hp] at hsucc ⊢
      cases ho : o.openExclErr with
      | some s2 =>
        rw [ho] at hsucc
        simp at hsucc
      | none =>
        rw [ho] at hsucc
        simp only at hsucc ⊢
        cases hot : o.openTmpErr with
        | some s2 =>
          rw [hot] at hsucc
          simp at hsucc
        | none =>
          rw [hot] at hsucc
          simp only at hsucc ⊢
          have hlt : fsLookup (fsInsert fs p (FSEntry.regular [] perm)) o.tmpName =
              some (FSEntry.regular data tp) := by
            rw [fsLookup_insert, if_neg hne]
            exact htmp
          simp only [hlt] at hsucc ⊢
          cases hcp : o.copyErr with
          | some ks =>
            rw [hcp] at hsucc
            simp at hsucc
          | none =>
            rw [hcp] at hsucc
            simp only at hsucc ⊢
            cases hos : o.outSyncErr with
            | some s2 =>
              rw [hos] at hsucc
              simp at hsucc
            | none =>
              rw [hos] at hsucc
              simp only at hsucc ⊢
              cases hoc : o.outCloseErr with
              | some s2 =>
                rw [hoc] at hsucc
                simp at hsucc
              | none =>
                refine ⟨perm, ?_⟩
                rw [fsLookup_remove, if_neg (Ne.symm hne), fsLookup_insert, if_pos rfl]

theorem fsLookup_staged_dest (o : Oracle) (fs : FS) (data : List Nat)
    (perm : Nat) (q : Path) (hq : q ≠ o.tmpName) :
    fsLookup (fsInsert (fsInsert fs o.tmpName (.regular [] (tmpPerm o perm)))
      o.tmpName (.regular data (tmpPerm o perm))) q = fsLookup fs q := by
  simp [fsLookup_insert, hq]

theorem fsLookup_staged_tmp (o : Oracle) (fs : FS) (data : List Nat)
    (perm : Nat) :
    fsLookup (fsInsert (fsInsert fs o.tmpName (.regular [] (tmpPerm o perm)))
      o.tmpName (.regular data (tmpPerm o perm))) o.tmpName =
      some (.regular data (tmpPerm o perm)) := by
  simp [fsLookup_insert]

/-- C5: a symbolic link anywhere in the destination's parent directory
chain makes the call fail with the SymlinkInParent error naming the
offending component, and the filesystem is completely untouched (no
staging file, no file at the resolved location): the parent check runs
before any staging I/O. -/
theorem c5_symlink_parent (windows : Bool) (o : Oracle) (fs : FS) (path : Path)
    (data : List Nat) (perm : Nat) (overwrite : Bool) (q : Path)
    (hpath : path ≠ [])
    (hsym : verifyDirNoSymlink fs path.dropLast = some q) :
    (writeFileAtomicBytes windows o fs path data perm overwrite).res =
        .error (.symlinkInParent q) ∧
      (writeFileAtomicBytes windows o fs path data perm overwrite).fs = fs ∧
      isSymlinkAt fs q = true := by
  have hq : isSymlinkAt fs q = true := List.find?_some hsym
  unfold writeFileAtomicBytes
  rw [if_neg hpath]
  simp only [hsym]
  simp [hq]

theorem c5_symlink_parent_witness :
    (["lnk", "x"] : Path) ≠ [] ∧
      verifyDirNoSymlink [(["lnk"], FSEntry.symlink ["real"])]
        (["lnk", "x"] : Path).dropLast = some ["lnk"] ∧
      ((writeFileAtomicBytes false { tmpName := ["t"] }
          [(["lnk"], FSEntry.symlink ["real"])] ["lnk", "x"] [1] 420 true).res =
          .error (.symlinkInParent ["lnk"]) ∧
        (writeFileAtomicBytes false { tmpName := ["t"] }
          [(["lnk"], FSEntry.symlink ["real"])] ["lnk", "x"] [1] 420 true).fs =
          [(["lnk"], FSEntry.symlink ["real"])] ∧
        isSymlinkAt [(["lnk"], FSEntry.symlink ["real"])] ["lnk"] = true) :=
  ⟨by decide, by decide,
    c5_symlink_parent false { tmpName := ["t"] } [(["lnk"], FSEntry.symlink ["real"])]
      ["lnk", "x"] [1] 420 true ["lnk"] (by decide) (by decide)⟩

/-- C6: an existing destination that is a directory fails with
DestinationIsDirectory regardless of the overwrite flag, and one that is
neither a regular file nor a symlink fails with InvalidDestinationType; in
both cases the check precedes any staging I/O and the filesystem is
untouched. -/
theorem c6_destination_type (windows : Bool) (o : Oracle) (fs : FS) (path : Path)
    (data : List Nat) (perm : Nat) (overwrite : Bool)
    (hpath : path ≠ [])
    (hpar : verifyDirNoSymlink fs path.dropLast = none)
    (hdest : fsLookup fs path = some .directory ∨ fsLookup fs path = some .other) :
    (writeFileAtomicBytes windows o fs path data perm overwrite).res =
        .error (match fsLookup fs path with
          | some .directory => .destIsDirectory
          | _ => .invalidDestType) ∧
      (writeFileAtomicBytes windows o fs path data perm overwrite).fs = fs := by
  unfold writeFileAtomicBytes
  rw [if_neg hpath]
  simp only [hpar]
  rcases hdest with h | h <;> simp [validateDest, h]

theorem c6_destination_type_witness :
    (["d", "adir"] : Path) ≠ [] ∧
      verifyDirNoSymlink [((["d", "adir"] : Path), FSEntry.directory)]
        (["d", "adir"] : Path).dropLast = none ∧
      (fsLookup [((["d", "adir"] : Path), FSEntry.directory)] ["d", "adir"] =
          some .directory ∨
        fsLookup [((["d", "adir"] : Path), FSEntry.directory)] ["d", "adir"] =
          some .other) ∧
      ((writeFileAtomicBytes true { tmpName := ["t"] }
          [((["d", "adir"] : Path), FSEntry.directory)] ["d", "adir"] [7] 420
          true).res =
          .error (match fsLookup [((["d", "adir"] : Path), FSEntry.directory)]
              ["d", "adir"] with
            | some .directory => .destIsDirectory
            | _ => .invalidDestType) ∧
        (writeFileAtomicBytes true { tmpName := ["t"] }
          [((["d", "adir"] : Path), FSEntry.directory)] ["d", "adir"] [7] 420
          true).fs = [((["d", "adir"] : Path), FSEntry.directory)]) :=
  ⟨by decide, by decide, Or.inl (by decide),
    c6_destination_type true { tmpName := ["t"] }
      [((["d", "adir"] : Path), FSEntry.directory)] ["d", "adir"] [7] 420 true
      (by decide) (by decide) (Or.inl (by decide))⟩

/-- C3: with overwrite=false, a destination that already holds content C
makes the call fail with AlreadyExists and leaves the destination holding
exactly C, whether the collision is detected at the pre-check, by the
commit primitive after a racing writer created the destination, or by the
exclusive-create fallback after a racing writer created it there. -/
theorem c3_noOverwrite_collision (windows : Bool) (o : Oracle) (fs : FS)
    (path : Path) (data : List Nat) (perm : Nat) (C : List Nat) (pm : Nat)
    (hpath : path ≠ [])
    (hpar : verifyDirNoSymlink fs path.dropLast = none)
    (hfresh : freshTmp o fs path)
    (hstage : stagingOK o)
    (hcase :
      fsLookup fs path = some (.regular C pm) ∨
        (fsLookup fs path = none ∧ o.raceEntry = some (.regular C pm)) ∨
        (fsLookup fs path = none ∧ o.raceEntry = none ∧ windows = false ∧
          (o.linkErr).isSome = true ∧ o.raceEntry2 = some (.regular C pm))) :
    (writeFileAtomicBytes windows o fs path data perm false).res =
        .error .alreadyExists ∧
      fsLookup (writeFileAtomicBytes windows o fs path data perm false).fs path =
        some (.regular C pm) := by
  obtain ⟨hf1, hf2⟩ := hfresh
  have hpt : path ≠ o.tmpName := Ne.symm hf2
  unfold writeFileAtomicBytes
  rw [if_neg hpath]
  simp only [hpar]
  rcases hcase with h | ⟨hnone, hrace⟩ | ⟨hnone, hrace, hwin, hlink, hrace2⟩
  · simp [validateDest, h]
  · simp only [validateDest, hnone, stage_of_stagingOK o fs data perm hstage, hrace]
    rw [fsLookup_staged_dest o fs data perm path hpt, hnone]
    simp only [Option.isSome_none, Bool.false_eq_true, if_false]
    have hlook2 : fsLookup (fsInsert (fsInsert (fsInsert fs o.tmpName
        (.regular [] (tmpPerm o perm))) o.tmpName
        (.regular data (tmpPerm o perm))) path (.regular C pm)) path =
        some (.regular C pm) := by
      rw [fsLookup_insert, if_pos rfl]
    cases windows with
    | true =>
      simp only [if_true]
      unfold commitNoOverwriteWindows
      rw [hlook2]
      simp only [Option.isSome_some, if_true]
      refine ⟨trivial, ?_⟩
      rw [fsLookup_remove, if_neg hpt]
      exact hlook2
    | false =>
      simp only [Bool.false_eq_true, if_false]
      unfold commitNoOverwriteUnix
      rw [hlook2]
      simp only [Option.isSome_some, if_true]
      refine ⟨trivial, ?_⟩
      rw [fsLookup_remove, if_neg hpt]
      exact hlook2
  · obtain ⟨ls, hls⟩ := Option.isSome_iff_exists.mp hlink
    subst hwin
    simp only [validateDest, hnone, stage_of_stagingOK o fs data perm hstage, hrace]
    have hstaged : fsLookup (fsInsert (fsInsert fs o.tmpName
        (.regular [] (tmpPerm o perm))) o.tmpName
        (.regular data (tmpPerm o perm))) path = none := by
      rw [fsLookup_staged_dest o fs data perm path hpt]
      exact hnone
    simp only [Bool.false_eq_true, if_false]
    unfold commitNoOverwriteUnix
    rw [hstaged]
    simp only [Option.isSome_none, Bool.false_eq_true, if_false, hls, hrace2, hstaged]
    have hlookr : fsLookup (fsInsert (fsInsert (fsInsert fs o.tmpName
        (.regular [] (tmpPerm o perm))) o.tmpName
        (.regular data (tmpPerm o perm))) path (.regular C pm)) path =
        some (.regular C pm) := by
      rw [fsLookup_insert, if_pos rfl]
    rw [hlookr]
    simp only [Option.isSome_some, if_true]
    refine ⟨trivial, ?_⟩
    rw [fsLookup_remove, if_neg hpt]
    exact hlookr

theorem c3_noOverwrite_collision_witness :
    (["d", "e.txt"] : Path) ≠ [] ∧
      verifyDirNoSymlink [((["d", "e.txt"] : Path), FSEntry.regular [5] 420)]
        (["d", "e.txt"] : Path).dropLast = none ∧
      freshTmp { tmpName := ["d", "t"] }
        [((["d", "e.txt"] : Path), FSEntry.regular [5] 420)] ["d", "e.txt"] ∧
      stagingOK { tmpName := ["d", "t"] } ∧
      fsLookup [((["d", "e.txt"] : Path), FSEntry.regular [5] 420)] ["d", "e.txt"] =
        some (.regular [5] 420) ∧
      ((writeFileAtomicBytes false { tmpName := ["d", "t"] }
          [((["d", "e.txt"] : Path), FSEntry.regular [5] 420)] ["d", "e.txt"]
          [1, 2] 384 false).res = .error .alreadyExists ∧
        fsLookup (writeFileAtomicBytes false { tmpName := ["d", "t"] }
          [((["d", "e.txt"] : Path), FSEntry.regular [5] 420)] ["d", "e.txt"]
          [1, 2] 384 false).fs ["d", "e.txt"] = some (.regular [5] 420)) :=
  ⟨by decide, by decide, by decide, by decide, by decide,
    c3_noOverwrite_collision false { tmpName := ["d", "t"] }
      [((["d", "e.txt"] : Path), FSEntry.regular [5] 420)] ["d", "e.txt"] [1, 2]
      384 [5] 420 (by decide) (by decide) (by decide) (by decide)
      (Or.inl (by decide))⟩

/-- C8: a short write during staging fails with the ShortWrite error kind
carrying the written and expected byte counts, and every staging-phase
failure (write error, short write, sync error, close error) removes the
staging file and leaves the destination untouched before the error is
returned. -/
theorem c8_staging_failures (windows : Bool) (o : Oracle) (fs : FS)
    (path : Path) (data : List Nat) (perm : Nat) (overwrite : Bool)
    (hpath : path ≠ [])
    (hpar : verifyDirNoSymlink fs path.dropLast = none)
    (hval : validateDest fs path overwrite = none)
    (hfresh : freshTmp o fs path)
    (hct : o.createTempErr = none)
    (hcase : (∃ s, o.writeErr = some s) ∨
        (o.writeErr = none ∧ ∃ k, o.writeShort = some k ∧ k < data.length) ∨
        (o.writeErr = none ∧ o.writeShort = none ∧ ∃ s, o.syncErr = some s) ∨
        (o.writeErr = none ∧ o.writeShort = none ∧ o.syncErr = none ∧
          ∃ s, o.closeErr = some s)) :
    fsLookup (writeFileAtomicBytes windows o fs path data perm overwrite).fs
        o.tmpName = none ∧
      fsLookup (writeFileAtomicBytes windows o fs path data perm overwrite).fs
        path = fsLookup fs path ∧
      (writeFileAtomicBytes windows o fs path data perm overwrite).res =
        .error (match o.writeErr, o.writeShort, o.syncErr, o.closeErr with
          | some s, _, _, _ => .ioError s
          | none, some k, _, _ => .shortWrite (min k data.length) data.length
          | none, none, some s, _ => .ioError s
          | none, none, none, some s => .ioError s
          | none, none, none, none => .invalidPath) := by
  obtain ⟨hf1, hf2⟩ := hfresh
  have hpt : path ≠ o.tmpName := Ne.symm hf2
  unfold writeFileAtomicBytes
  rw [if_neg hpath]
  simp only [hpar, hval]
  rcases hcase with ⟨s, hw⟩ | ⟨hwn, k, hk, hklt⟩ | ⟨hwn, hks, s, hsy⟩ |
    ⟨hwn, hks, hsy, s, hcl⟩
  · have hst : stage o fs data perm = .error (.ioError s,
        fsRemove (fsInsert fs o.tmpName (.regular [] (tmpPerm o perm)))
          o.tmpName) := by
      simp [stage, hct, hw]
    simp only [hst, hw]
    refine ⟨?_, ?_, trivial⟩
    · rw [fsLookup_remove, if_pos rfl]
    · rw [fsLookup_remove, if_neg hpt, fsLookup_insert, if_neg hpt]
  · have hmin : min k data.length < data.length := by
      exact min_lt_iff.mpr (Or.inl hklt)
    have hst : stage o fs data perm = .error
        (.shortWrite (min k data.length) data.length,
        fsRemove (fsInsert (fsInsert fs o.tmpName
          (.regular [] (tmpPerm o perm))) o.tmpName
          (.regular (data.take (min k data.length)) (tmpPerm o perm)))
          o.tmpName) := by
      simp [stage, hct, hwn, hk, hmin]
    simp only [hst, hwn, hk]
    refine ⟨?_, ?_, trivial⟩
    · rw [fsLookup_remove, if_pos rfl]
    · rw [fsLookup_remove, if_neg hpt, fsLookup_insert, if_neg hpt,
        fsLookup_insert, if_neg hpt]
  · have hst : stage o fs data perm = .error (.ioError s,
        fsRemove (fsInsert (fsInsert fs o.tmpName
          (.regular [] (tmpPerm o perm))) o.tmpName
          (.regular (data.take data.length) (tmpPerm o perm))) o.tmpName) := by
      simp [stage, hct, hwn, hks, hsy]
    simp only [hst, hwn, hks, hsy]
    refine ⟨?_, ?_, trivial⟩
    · rw [fsLookup_remove, if_pos rfl]
    · rw [fsLookup_remove, if_neg hpt, fsLookup_insert, if_neg hpt,
        fsLookup_insert, if_neg hpt]
  · have hst : stage o fs data perm = .error (.ioError s,
        fsRemove (fsInsert (fsInsert fs o.tmpName
          (.regular [] (tmpPerm o perm))) o.tmpName
          (.regular (data.take data.length) (tmpPerm o perm))) o.tmpName) := by
      simp [stage, hct, hwn, hks, hsy, hcl]
    simp only [hst, hwn, hks, hsy, hcl]
    refine ⟨?_, ?_, trivial⟩
    · rw [fsLookup_remove, if_pos rfl]
    · rw [fsLookup_remove, if_neg hpt, fsLookup_insert, if_neg hpt,
        fsLookup_insert, if_neg hpt]

theorem c8_staging_failures_witness :
    (["d", "new"] : Path) ≠ [] ∧
      verifyDirNoSymlink ([] : FS) (["d", "new"] : Path).dropLast = none ∧
      validateDest ([] : FS) ["d", "new"] false = none ∧
      freshTmp { tmpName := ["d", "t"], writeShort := some 1 } ([] : FS)
        ["d", "new"] ∧
      Oracle.createTempErr { tmpName := ["d", "t"], writeShort := some 1 } =
        none ∧
      (fsLookup (writeFileAtomicBytes false
          { tmpName := ["d", "t"], writeShort := some 1 } ([] : FS) ["d", "new"]
          [1, 2, 3] 420 false).fs ["d", "t"] = none ∧
        fsLookup (writeFileAtomicBytes false
          { tmpName := ["d", "t"], writeShort := some 1 } ([] : FS) ["d", "new"]
          [1, 2, 3] 420 false).fs ["d", "new"] = fsLookup ([] : FS) ["d", "new"] ∧
        (writeFileAtomicBytes false
          { tmpName := ["d", "t"], writeShort := some 1 } ([] : FS) ["d", "new"]
          [1, 2, 3] 420 false).res = .error (.shortWrite 1 3)) := by
  refine ⟨by decide, by decide, by decide, by decide, by decide, ?_⟩
  exact c8_staging_failures false { tmpName := ["d", "t"], writeShort := some 1 }
    ([] : FS) ["d", "new"] [1, 2, 3] 420 false (by decide) (by decide)
    (by decide) (by decide) (by decide)
    (Or.inr (Or.inl (by refine ⟨rfl, 1, rfl, ?_⟩; decide)))

/-- C10: a destination that is itself a symbolic link (possibly dangling)
is treated as an existing valid destination: with overwrite=false the call
fails AlreadyExists without touching anything (the link is not followed);
with overwrite=true on the POSIX path the rename replaces the symlink entry
itself by a regular file holding the payload, and the entry the link
pointed at is unchanged. -/
theorem c10_symlink_destination (windows : Bool) (o : Oracle) (fs : FS)
    (path : Path) (data : List Nat) (perm : Nat) (overwrite : Bool) (tgt : Path)
    (hpath : path ≠ [])
    (hpar : verifyDirNoSymlink fs path.dropLast = none)
    (hdest : fsLookup fs path = some (.symlink tgt))
    (htgt : tgt ≠ path)
    (hfresh : freshTmp o fs path)
    (hcase : overwrite = false ∨
        (overwrite = true ∧ windows = false ∧ stagingOK o ∧
          o.posixRenameErr = none ∧ o.chmodDestFails = false)) :
    match overwrite with
    | false =>
        (writeFileAtomicBytes windows o fs path data perm overwrite).res =
            .error .alreadyExists ∧
          (writeFileAtomicBytes windows o fs path data perm overwrite).fs = fs
    | true =>
        (writeFileAtomicBytes windows o fs path data perm overwrite).res =
            .ok () ∧
          fsLookup (writeFileAtomicBytes windows o fs path data perm
            overwrite).fs path = some (.regular data perm) ∧
          fsLookup (writeFileAtomicBytes windows o fs path data perm
            overwrite).fs tgt = fsLookup fs tgt := by
  obtain ⟨hf1, hf2⟩ := hfresh
  have hpt : path ≠ o.tmpName := Ne.symm hf2
  rcases hcase with ho | ⟨ho, hw, hstage, hrn, hcd⟩
  · subst ho
    unfold writeFileAtomicBytes
    rw [if_neg hpath]
    simp [hpar, validateDest, hdest]
  · subst ho
    subst hw
    unfold writeFileAtomicBytes
    rw [if_neg hpath]
    simp only [hpar]
    have hvd : validateDest fs path true = none := by
      simp [validateDest, hdest]
    simp only [hvd, stage_of_stagingOK o fs data perm hstage]
    have hstagedlook : fsLookup (fsInsert (fsInsert fs o.tmpName
        (.regular [] (tmpPerm o perm))) o.tmpName
        (.regular data (tmpPerm o perm))) path = some (.symlink tgt) := by
      rw [fsLookup_staged_dest o fs data perm path hpt]
      exact hdest
    have hfs2 : (match o.raceEntry with
        | some e =>
            if (fsLookup (fsInsert (fsInsert fs o.tmpName
              (.regular [] (tmpPerm o perm))) o.tmpName
              (.regular data (tmpPerm o perm))) path).isSome then
              fsInsert (fsInsert fs o.tmpName
                (.regular [] (tmpPerm o perm))) o.tmpName
                (.regular data (tmpPerm o perm))
            else fsInsert (fsInsert (fsInsert fs o.tmpName
              (.regular [] (tmpPerm o perm))) o.tmpName
              (.regular data (tmpPerm o perm))) path e
        | none => fsInsert (fsInsert fs o.tmpName
            (.regular [] (tmpPerm o perm))) o.tmpName
            (.regular data (tmpPerm o perm))) =
        fsInsert (fsInsert fs o.tmpName (.regular [] (tmpPerm o perm)))
          o.tmpName (.regular data (tmpPerm o perm)) := by
      cases o.raceEntry <;> simp [hstagedlook]
    simp only [hfs2, if_true]
    unfold commitOverwrite
    simp only [Bool.false_eq_true, if_false, hrn, hcd]
    have htmps : fsLookup (fsInsert (fsInsert fs o.tmpName
        (.regular [] (tmpPerm o perm))) o.tmpName
        (.regular data (tmpPerm o perm))) o.tmpName =
        some (.regular data (tmpPerm o perm)) := fsLookup_staged_tmp o fs data perm
    refine ⟨trivial, ?_, ?_⟩
    · rw [fsLookup_chmod]
      rw [fsLookup_move _ o.tmpName path path _ hf2 htmps, if_neg (Ne.symm hf2),
        if_pos rfl]
      simp
    · rw [fsLookup_chmod]
      rw [fsLookup_move _ o.tmpName path tgt _ hf2 htmps]
      rw [fsLookup_move _ o.tmpName path path _ hf2 htmps, if_neg (Ne.symm hf2),
        if_pos rfl]
      by_cases htt : tgt = o.tmpName
      · subst htt
        simp [htgt, hf1]
      · simp only [if_neg htt, if_neg htgt]
        exact fsLookup_staged_dest o fs data perm tgt htt

theorem c10_symlink_destination_witness :
    (["d", "lnk"] : Path) ≠ [] ∧
      verifyDirNoSymlink
        [((["d", "lnk"] : Path), FSEntry.symlink ["d", "real"]),
          ((["d", "real"] : Path), FSEntry.regular [9] 420)]
        (["d", "lnk"] : Path).dropLast = none ∧
      fsLookup [((["d", "lnk"] : Path), FSEntry.symlink ["d", "real"]),
          ((["d", "real"] : Path), FSEntry.regular [9] 420)] ["d", "lnk"] =
        some (.symlink ["d", "real"]) ∧
      (["d", "real"] : Path) ≠ ["d", "lnk"] ∧
      freshTmp { tmpName := ["d", "t"] }
        [((["d", "lnk"] : Path), FSEntry.symlink ["d", "real"]),
          ((["d", "real"] : Path), FSEntry.regular [9] 420)] ["d", "lnk"] ∧
      ((writeFileAtomicBytes false { tmpName := ["d", "t"] }
          [((["d", "lnk"] : Path), FSEntry.symlink ["d", "real"]),
            ((["d", "real"] : Path), FSEntry.regular [9] 420)]
          ["d", "lnk"] [1, 2] 384 true).res = .ok () ∧
        fsLookup (writeFileAtomicBytes false { tmpName := ["d", "t"] }
          [((["d", "lnk"] : Path), FSEntry.symlink ["d", "real"]),
            ((["d", "real"] : Path), FSEntry.regular [9] 420)]
          ["d", "lnk"] [1, 2] 384 true).fs ["d", "lnk"] =
          some (.regular [1, 2] 384) ∧
        fsLookup (writeFileAtomicBytes false { tmpName := ["d", "t"] }
          [((["d", "lnk"] : Path), FSEntry.symlink ["d", "real"]),
            ((["d", "real"] : Path), FSEntry.regular [9] 420)]
          ["d", "lnk"] [1, 2] 384 true).fs ["d", "real"] =
          fsLookup [((["d", "lnk"] : Path), FSEntry.symlink ["d", "real"]),
            ((["d", "real"] : Path), FSEntry.regular [9] 420)] ["d", "real"]) :=
  ⟨by decide, by decide, by decide, by decide, by decide,
    c10_symlink_destination false { tmpName := ["d", "t"] }
      [((["d", "lnk"] : Path), FSEntry.symlink ["d", "real"]),
        ((["d", "real"] : Path), FSEntry.regular [9] 420)]
      ["d", "lnk"] [1, 2] 384 true ["d", "real"] (by decide) (by decide)
      (by decide) (by decide) (by decide)
      (Or.inr ⟨rfl, rfl, by decide, rfl, rfl⟩)⟩

/-- Success of the overwrite=true call leaves the destination holding the
payload with the requested permission bits (the staged entry was renamed
onto the destination and the best-effort chmod applied). -/
theorem overwrite_success_state (windows : Bool) (o : Oracle) (fs : FS)
    (path : Path) (data : List Nat) (perm : Nat)
    (hfresh : freshTmp o fs path) (hchmod : o.chmodDestFails = false)
    (hsucc : (writeFileAtomicBytes windows o fs path data perm true).res =
      .ok ()) :
    fsLookup (writeFileAtomicBytes windows o fs path data perm true).fs path =
      some (.regular data perm) := by
  obtain ⟨hfa, hfb⟩ := hfresh
  by_cases hpath : path = []
  · unfold writeFileAtomicBytes at hsucc
    rw [if_pos hpath] at hsucc
    simp at hsucc
  unfold writeFileAtomicBytes at hsucc ⊢
  rw [if_neg hpath] at hsucc ⊢
  cases hver : verifyDirNoSymlink fs path.dropLast with
  | some q => simp [hver] at hsucc
  | none =>
  rw [hver] at hsucc
  cases hval : validateDest fs path true with
  | some e2 => simp [hval] at hsucc
  | none =>
  rw [hval] at hsucc
  cases hst : stage o fs data perm with
  | error efs =>
    obtain ⟨e2, fsE⟩ := efs
    simp [hst] at hsucc
  | ok fs1 =>
  rw [hst] at hsucc
  obtain ⟨htmp1, hother1⟩ := stage_ok_inv o fs data perm fs1 hst
  simp only [eq_self_iff_true, if_true] at hsucc ⊢
  have htmp2 : fsLookup (match o.raceEntry with
      | some e => if (fsLookup fs1 path).isSome then fs1 else fsInsert fs1 path e
      | none => fs1) o.tmpName = some (.regular data (tmpPerm o perm)) := by
    cases o.raceEntry with
    | none => exact htmp1
    | some e2 =>
      by_cases hpp : (fsLookup fs1 path).isSome <;>
        simp [hpp, fsLookup_insert, hfb, htmp1]
  exact commitOverwrite_ok_state windows o _ path perm data _ htmp2 hfb hchmod
    hsucc

/-- C2: with overwrite=false, whenever the call succeeds the destination
exists and holds exactly the payload bytes (for some permission bits, the
chmod being best-effort). -/
theorem c2_success_content (windows : Bool) (o : Oracle) (fs : FS)
    (path : Path) (data : List Nat) (perm : Nat)
    (hne : fsLookup fs path = none)
    (hfresh : freshTmp o fs path)
    (hrace : noRace o)
    (hsucc : (writeFileAtomicBytes windows o fs path data perm false).res =
      .ok ()) :
    ∃ pm, fsLookup (writeFileAtomicBytes windows o fs path data perm false).fs
      path = some (.regular data pm) := by
  obtain ⟨hf1, hf2⟩ := hfresh
  obtain ⟨hr1, hr2⟩ := hrace
  by_cases hpath : path = []
  · unfold writeFileAtomicBytes at hsucc
    rw [if_pos hpath] at hsucc
    simp at hsucc
  unfold writeFileAtomicBytes at hsucc ⊢
  rw [if_neg hpath] at hsucc ⊢
  cases hver : verifyDirNoSymlink fs path.dropLast with
  | some q => simp [hver] at hsucc
  | none =>
  rw [hver] at hsucc
  have hval : validateDest fs path false = none := by
    simp [validateDest, hne]
  rw [hval] at hsucc ⊢
  cases hst : stage o fs data perm with
  | error efs =>
    obtain ⟨e2, fsE⟩ := efs
    simp [hst] at hsucc
  | ok fs1 =>
  rw [hst] at hsucc
  obtain ⟨htmp1, hother1⟩ := stage_ok_inv o fs data perm fs1 hst
  simp only [hr1, Bool.false_eq_true, if_false] at hsucc ⊢
  by_cases hw : windows
  · rw [if_pos hw] at hsucc ⊢
    exact commitNoOverwriteWindows_ok_state o fs1 path perm data _ htmp1
      (Ne.symm (Ne.symm hf2)) hsucc
  · rw [if_neg hw] at hsucc ⊢
    exact commitNoOverwriteUnix_ok_state o fs1 path perm data _ htmp1
      (Ne.symm (Ne.symm hf2)) hr2 hsucc

theorem c2_success_content_witness :
    fsLookup ([] : FS) ["d", "out"] = none ∧
      freshTmp { tmpName := ["d", "t"] } ([] : FS) ["d", "out"] ∧
      noRace { tmpName := ["d", "t"] } ∧
      (writeFileAtomicBytes false { tmpName := ["d", "t"] } ([] : FS)
        ["d", "out"] [104, 105] 420 false).res = .ok () ∧
      ∃ pm, fsLookup (writeFileAtomicBytes false { tmpName := ["d", "t"] }
        ([] : FS) ["d", "out"] [104, 105] 420 false).fs ["d", "out"] =
        some (.regular [104, 105] pm) :=
  ⟨by decide, by decide, by decide, by rfl,
    c2_success_content false { tmpName := ["d", "t"] } ([] : FS) ["d", "out"]
      [104, 105] 420 (by decide) (by decide) (by decide) (by rfl)⟩

/-- C9: two successive successful overwrite=true calls with the same payload
and permissions leave the destination in the identical final state after
each call: a regular file with exactly the payload and the requested
permission bits. -/
theorem c9_idempotent_overwrite (windows : Bool) (o1 o2 : Oracle) (fs : FS)
    (path : Path) (data : List Nat) (perm : Nat)
    (hfr1 : freshTmp o1 fs path) (hc1 : o1.chmodDestFails = false)
    (hsucc1 : (writeFileAtomicBytes windows o1 fs path data perm true).res =
      .ok ())
    (hfr2 : freshTmp o2
      (writeFileAtomicBytes windows o1 fs path data perm true).fs path)
    (hc2 : o2.chmodDestFails = false)
    (hsucc2 : (writeFileAtomicBytes windows o2
      (writeFileAtomicBytes windows o1 fs path data perm true).fs
      path data perm true).res = .ok ()) :
    fsLookup (writeFileAtomicBytes windows o1 fs path data perm true).fs path =
        some (.regular data perm) ∧
      fsLookup (writeFileAtomicBytes windows o2
        (writeFileAtomicBytes windows o1 fs path data perm true).fs
        path data perm true).fs path = some (.regular data perm) :=
  ⟨overwrite_success_state windows o1 fs path data perm hfr1 hc1 hsucc1,
    overwrite_success_state windows o2 _ path data perm hfr2 hc2 hsucc2⟩

theorem c9_idempotent_overwrite_witness :
    freshTmp { tmpName := ["d", "t1"] } [((["d", "f"] : Path),
        FSEntry.regular [9] 256)] ["d", "f"] ∧
      (writeFileAtomicBytes false { tmpName := ["d", "t1"] }
        [((["d", "f"] : Path), FSEntry.regular [9] 256)] ["d", "f"] [1] 384
        true).res = .ok () ∧
      freshTmp { tmpName := ["d", "t2"] }
        (writeFileAtomicBytes false { tmpName := ["d", "t1"] }
          [((["d", "f"] : Path), FSEntry.regular [9] 256)] ["d", "f"] [1] 384
          true).fs ["d", "f"] ∧
      (writeFileAtomicBytes false { tmpName := ["d", "t2"] }
        (writeFileAtomicBytes false { tmpName := ["d", "t1"] }
          [((["d", "f"] : Path), FSEntry.regular [9] 256)] ["d", "f"] [1] 384
          true).fs ["d", "f"] [1] 384 true).res = .ok () ∧
      (fsLookup (writeFileAtomicBytes false { tmpName := ["d", "t1"] }
          [((["d", "f"] : Path), FSEntry.regular [9] 256)] ["d", "f"] [1] 384
          true).fs ["d", "f"] = some (.regular [1] 384) ∧
        fsLookup (writeFileAtomicBytes false { tmpName := ["d", "t2"] }
          (writeFileAtomicBytes false { tmpName := ["d", "t1"] }
            [((["d", "f"] : Path), FSEntry.regular [9] 256)] ["d", "f"] [1] 384
            true).fs ["d", "f"] [1] 384 true).fs ["d", "f"] =
          some (.regular [1] 384)) :=
  ⟨by decide, by rfl, by decide, by rfl,
    c9_idempotent_overwrite false { tmpName := ["d", "t1"] }
      { tmpName := ["d", "t2"] } [((["d", "f"] : Path), FSEntry.regular [9] 256)]
      ["d", "f"] [1] 384 (by decide) (by decide) (by rfl) (by decide)
      (by decide) (by rfl)⟩

/-- C7: on the POSIX overwrite=false path, when hardlink creation fails for
a reason other than the destination existing, the engine falls back to an
exclusive-create of the destination plus a copy of the staged bytes: if the
destination has raced into existence the fallback fails AlreadyExists
leaving that entry in place, and on success the destination holds exactly
the payload; in both cases the staging file is removed. -/
theorem c7_fallback_copy (o : Oracle) (fs : FS) (path : Path)
    (data : List Nat) (perm : Nat)
    (hpath : path ≠ [])
    (hpar : verifyDirNoSymlink fs path.dropLast = none)
    (hne : fsLookup fs path = none)
    (hfresh : freshTmp o fs path)
    (hstage : stagingOK o)
    (hrace1 : o.raceEntry = none)
    (hlink : (o.linkErr).isSome = true)
    (hcase : (∃ e2, o.raceEntry2 = some e2) ∨
        (o.raceEntry2 = none ∧ o.openExclErr = none ∧ o.openTmpErr = none ∧
          o.copyErr = none ∧ o.outSyncErr = none ∧ o.outCloseErr = none)) :
    fsLookup (writeFileAtomicBytes false o fs path data perm false).fs
        o.tmpName = none ∧
      match o.raceEntry2 with
      | some e2 =>
          (writeFileAtomicBytes false o fs path data perm false).res =
              .error .alreadyExists ∧
            fsLookup (writeFileAtomicBytes false o fs path data perm
              false).fs path = some e2
      | none =>
          (writeFileAtomicBytes false o fs path data perm false).res =
              .ok () ∧
            fsLookup (writeFileAtomicBytes false o fs path data perm
              false).fs path = some (.regular data perm) := by
  obtain ⟨hf1, hf2⟩ := hfresh
  have hpt : path ≠ o.tmpName := Ne.symm hf2
  obtain ⟨ls, hls⟩ := Option.isSome_iff_exists.mp hlink
  have hval : validateDest fs path false = none := by
    simp [validateDest, hne]
  unfold writeFileAtomicBytes
  rw [if_neg hpath]
  simp only [hpar, hval, stage_of_stagingOK o fs data perm hstage, hrace1]
  simp only [Bool.false_eq_true, if_false]
  unfold commitNoOverwriteUnix
  have hstaged : fsLookup (fsInsert (fsInsert fs o.tmpName
      (.regular [] (tmpPerm o perm))) o.tmpName
      (.regular data (tmpPerm o perm))) path = none := by
    rw [fsLookup_staged_dest o fs data perm path hpt]
    exact hne
  simp only [hstaged, Option.isSome_none, Bool.false_eq_true, if_false, hls]
  rcases hcase with ⟨e2, h2⟩ | ⟨h2, ho1, ho2, ho3, ho4, ho5⟩
  · simp only [h2, hstaged, Option.isSome_none, Bool.false_eq_true, if_false]
    have hl2 : fsLookup (fsInsert (fsInsert (fsInsert fs o.tmpName
        (.regular [] (tmpPerm o perm))) o.tmpName
        (.regular data (tmpPerm o perm))) path e2) path = some e2 := by
      rw [fsLookup_insert, if_pos rfl]
    simp only [hl2, Option.isSome_some, if_true]
    refine ⟨?_, trivial, ?_⟩
    · rw [fsLookup_remove, if_pos rfl]
    · rw [fsLookup_remove, if_neg hpt]
      exact hl2
  · simp only [h2, hstaged, Option.isSome_none, Bool.false_eq_true, if_false,
      ho1, ho2, ho3, ho4, ho5]
    have htmpins : fsLookup (fsInsert (fsInsert (fsInsert fs o.tmpName
        (.regular [] (tmpPerm o perm))) o.tmpName
        (.regular data (tmpPerm o perm))) path (.regular [] perm)) o.tmpName =
        some (.regular data (tmpPerm o perm)) := by
      rw [fsLookup_insert, if_neg hf2]
      exact fsLookup_staged_tmp o fs data perm
    simp only [htmpins]
    refine ⟨?_, trivial, ?_⟩
    · rw [fsLookup_remove, if_pos rfl]
    · rw [fsLookup_remove, if_neg hpt, fsLookup_insert, if_pos rfl]

theorem c7_fallback_copy_witness :
    (["d", "n"] : Path) ≠ [] ∧
      verifyDirNoSymlink ([] : FS) (["d", "n"] : Path).dropLast = none ∧
      fsLookup ([] : FS) ["d", "n"] = none ∧
      freshTmp { tmpName := ["d", "t"], linkErr := some "eperm" } ([] : FS)
        ["d", "n"] ∧
      stagingOK { tmpName := ["d", "t"], linkErr := some "eperm" } ∧
      Oracle.raceEntry { tmpName := ["d", "t"], linkErr := some "eperm" } =
        none ∧
      (Oracle.linkErr { tmpName := ["d", "t"], linkErr := some "eperm"
        }).isSome = true ∧
      (fsLookup (writeFileAtomicBytes false
          { tmpName := ["d", "t"], linkErr := some "eperm" } ([] : FS)
          ["d", "n"] [3, 4] 420 false).fs ["d", "t"] = none ∧
        (writeFileAtomicBytes false
          { tmpName := ["d", "t"], linkErr := some "eperm" } ([] : FS)
          ["d", "n"] [3, 4] 420 false).res = .ok () ∧
        fsLookup (writeFileAtomicBytes false
          { tmpName := ["d", "t"], linkErr := some "eperm" } ([] : FS)
          ["d", "n"] [3, 4] 420 false).fs ["d", "n"] =
          some (.regular [3, 4] 420)) := by
  refine ⟨by decide, by decide, by decide, by decide, by decide, by decide,
    by decide, ?_⟩
  have h := c7_fallback_copy { tmpName := ["d", "t"], linkErr := some "eperm" }
    ([] : FS) ["d", "n"] [3, 4] 420 (by decide) (by decide) (by decide)
    (by decide) (by decide) (by decide) (by decide)
    (Or.inr ⟨rfl, rfl, rfl, rfl, rfl, rfl⟩)
  exact ⟨h.1, h.2.1, h.2.2⟩

/-- When every rename attempt fails, the Windows overwrite commit returns
the last rename error, removes the staging file and the destination, and
performed the six increasing backoff sleeps. -/
theorem commitOverwrite_windows_allFail (o : Oracle) (fs : FS) (p : Path)
    (perm : Nat) (data : List Nat) (tp : Nat) (e : String)
    (htmp : fsLookup fs o.tmpName = some (.regular data tp))
    (hne : o.tmpName ≠ p)
    (hall : ∀ i, i < 6 → (o.winRenameErr i).isSome = true)
    (hlast : o.winRenameErr 5 = some e) :
    (commitOverwrite true o fs p perm).res = .error (.ioError e) ∧
      fsLookup (commitOverwrite true o fs p perm).fs o.tmpName = none ∧
      fsLookup (commitOverwrite true o fs p perm).fs p = none ∧
      (commitOverwrite true o fs p perm).sleeps = [15, 30, 45, 60, 75, 90] ∧
      (commitOverwrite true o fs p perm).attempts = 6 := by
  obtain ⟨hsl, hat, herr⟩ := winLoop_allFail o.winRenameErr fs o.tmpName p hall
  rw [hlast] at herr
  obtain ⟨_, ihsome, _⟩ := winLoopAux_spec o.winRenameErr o.tmpName p _ hne
    [0, 1, 2, 3, 4, 5] fs none htmp
  obtain ⟨htl, _, hpl⟩ := ihsome e herr
  unfold commitOverwrite
  simp only [eq_self_iff_true, if_true, herr]
  refine ⟨trivial, ?_, ?_, hsl, hat⟩
  · rw [fsLookup_remove, if_pos rfl]
  · rw [fsLookup_remove, if_neg (Ne.symm hne)]
    exact hpl (by simp)

/-- C4: on the Windows overwrite=true commit path, when every rename
attempt fails the engine executes exactly the fixed bound of 6 attempts
with strictly increasing backoff sleeps 15,30,45,60,75,90 ms, removes a
still-present destination between attempts (the destination is absent
afterwards), removes the staging file, and returns the last underlying
rename error. -/
theorem c4_windows_retry (o : Oracle) (fs : FS) (path : Path)
    (data : List Nat) (perm : Nat) (e : String)
    (hpath : path ≠ [])
    (hpar : verifyDirNoSymlink fs path.dropLast = none)
    (hval : validateDest fs path true = none)
    (hfresh : freshTmp o fs path)
    (hstage : stagingOK o)
    (hall : ∀ i, i < 6 → (o.winRenameErr i).isSome = true)
    (hlast : o.winRenameErr 5 = some e) :
    (writeFileAtomicBytes true o fs path data perm true).res =
        .error (.ioError e) ∧
      fsLookup (writeFileAtomicBytes true o fs path data perm true).fs
        o.tmpName = none ∧
      fsLookup (writeFileAtomicBytes true o fs path data perm true).fs path =
        none ∧
      (writeFileAtomicBytes true o fs path data perm true).sleeps =
        [15, 30, 45, 60, 75, 90] ∧
      (writeFileAtomicBytes true o fs path data perm true).attempts = 6 ∧
      List.Chain' (fun a b => a < b)
        (writeFileAtomicBytes true o fs path data perm true).sleeps := by
  obtain ⟨hf1, hf2⟩ := hfresh
  have hpt : path ≠ o.tmpName := Ne.symm hf2
  unfold writeFileAtomicBytes
  rw [if_neg hpath]
  simp only [hpar, hval, stage_of_stagingOK o fs data perm hstage]
  simp only [eq_self_iff_true, if_true]
  unfold commitOverwrite
  simp only [eq_self_iff_true, if_true]
  have htmp2 : fsLookup (match o.raceEntry with
      | some e2 =>
          if (fsLookup (fsInsert (fsInsert fs o.tmpName
            (.regular [] (tmpPerm o perm))) o.tmpName
            (.regular data (tmpPerm o perm))) path).isSome then
            fsInsert (fsInsert fs o.tmpName (.regular [] (tmpPerm o perm)))
              o.tmpName (.regular data (tmpPerm o perm))
          else
            fsInsert (fsInsert (fsInsert fs o.tmpName
              (.regular [] (tmpPerm o perm))) o.tmpName
              (.regular data (tmpPerm o perm))) path e2
      | none => fsInsert (fsInsert fs o.tmpName
          (.regular [] (tmpPerm o perm))) o.tmpName
          (.regular data (tmpPerm o perm))) o.tmpName =
      some (.regular data (tmpPerm o perm)) := by
    cases o.raceEntry with
    | none => exact fsLookup_staged_tmp o fs data perm
    | some e2 =>
      simp only
      by_cases hpp : (fsLookup (fsInsert (fsInsert fs o.tmpName
          (.regular [] (tmpPerm o perm))) o.tmpName
          (.regular data (tmpPerm o perm))) path).isSome
      · rw [if_pos hpp]
        exact fsLookup_staged_tmp o fs data perm
      · rw [if_neg hpp, fsLookup_insert, if_neg hf2]
        exact fsLookup_staged_tmp o fs data perm
  obtain ⟨h1, h2, h3, h4, h5⟩ := commitOverwrite_windows_allFail o _ path perm
    data _ e htmp2 hf2 hall hlast
  refine ⟨h1, h2, h3, h4, h5, ?_⟩
  have h6 : List.Chain' (fun a b => a < b) [15, 30, 45, 60, 75, 90] := by
    norm_num [List.chain'_cons]
  exact h4 ▸ h6

theorem c4_windows_retry_witness :
    (["d"] : Path) ≠ [] ∧
      verifyDirNoSymlink [((["d"] : Path), FSEntry.regular [9] 420)]
        (["d"] : Path).dropLast = none ∧
      validateDest [((["d"] : Path), FSEntry.regular [9] 420)] ["d"] true =
        none ∧
      freshTmp { tmpName := ["t"], winRenameErr := fun _ => some "locked" }
        [((["d"] : Path), FSEntry.regular [9] 420)] ["d"] ∧
      stagingOK { tmpName := ["t"], winRenameErr := fun _ => some "locked" } ∧
      Oracle.winRenameErr
        { tmpName := ["t"], winRenameErr := fun _ => some "locked" } 5 =
        some "locked" ∧
      ((writeFileAtomicBytes true
          { tmpName := ["t"], winRenameErr := fun _ => some "locked" }
          [((["d"] : Path), FSEntry.regular [9] 420)] ["d"] [1, 2] 384
          true).res = .error (.ioError "locked") ∧
        fsLookup (writeFileAtomicBytes true
          { tmpName := ["t"], winRenameErr := fun _ => some "locked" }
          [((["d"] : Path), FSEntry.regular [9] 420)] ["d"] [1, 2] 384
          true).fs ["t"] = none ∧
        fsLookup (writeFileAtomicBytes true
          { tmpName := ["t"], winRenameErr := fun _ => some "locked" }
          [((["d"] : Path), FSEntry.regular [9] 420)] ["d"] [1, 2] 384
          true).fs ["d"] = none ∧
        (writeFileAtomicBytes true
          { tmpName := ["t"], winRenameErr := fun _ => some "locked" }
          [((["d"] : Path), FSEntry.regular [9] 420)] ["d"] [1, 2] 384
          true).sleeps = [15, 30, 45, 60, 75, 90] ∧
        (writeFileAtomicBytes true
          { tmpName := ["t"], winRenameErr := fun _ => some "locked" }
          [((["d"] : Path), FSEntry.regular [9] 420)] ["d"] [1, 2] 384
          true).attempts = 6 ∧
        List.Chain' (fun a b => a < b) (writeFileAtomicBytes true
          { tmpName := ["t"], winRenameErr := fun _ => some "locked" }
          [((["d"] : Path), FSEntry.regular [9] 420)] ["d"] [1, 2] 384
          true).sleeps) := by
  refine ⟨by decide, by decide, by decide, by decide, by decide, rfl, ?_⟩
  exact c4_windows_retry
    { tmpName := ["t"], winRenameErr := fun _ => some "locked" }
    [((["d"] : Path), FSEntry.regular [9] 420)] ["d"] [1, 2] 384 "locked"
    (by decide) (by decide) (by decide) (by decide) (by decide)
    (fun i _ => rfl) rfl

/-- C1 counterexample: on the Windows overwrite=true path, a call that
fails (every rename attempt rejected while another process holds the
destination) does NOT leave the destination as it was: the retry loop had
removed the pre-existing destination, so after the failed call the
destination no longer exists. -/
theorem c1_counterexample :
    fsLookup [((["d"] : Path), FSEntry.regular [9] 420)] ["d"] =
        some (.regular [9] 420) ∧
      (writeFileAtomicBytes true
        { tmpName := ["t"], winRenameErr := fun _ => some "locked" }
        [((["d"] : Path), FSEntry.regular [9] 420)] ["d"] [1, 2] 384
        true).res = .error (.ioError "locked") ∧
      fsLookup (writeFileAtomicBytes true
        { tmpName := ["t"], winRenameErr := fun _ => some "locked" }
        [((["d"] : Path), FSEntry.regular [9] 420)] ["d"] [1, 2] 384
        true).fs ["d"] = none :=
  ⟨by decide, by rfl, by decide⟩

/-- C1 (amended): with no concurrent interference, a call that returns a
failure leaves the destination entry exactly as it was before the call —
same existence, content, type and permissions — except on the Windows
overwrite=true path, where the bounded retry loop may additionally have
removed the destination, leaving it absent; the destination is never left
holding new or partial content. -/
theorem c1_failure_leaves_destination (windows : Bool) (o : Oracle) (fs : FS)
    (path : Path) (data : List Nat) (perm : Nat) (overwrite : Bool) (e : WErr)
    (hfresh : freshTmp o fs path)
    (hrace : noRace o)
    (hfail : (writeFileAtomicBytes windows o fs path data perm overwrite).res =
      .error e) :
    fsLookup (writeFileAtomicBytes windows o fs path data perm overwrite).fs
        path = fsLookup fs path ∨
      (windows = true ∧ overwrite = true ∧
        fsLookup (writeFileAtomicBytes windows o fs path data perm
          overwrite).fs path = none) := by
  obtain ⟨hf1, hf2⟩ := hfresh
  obtain ⟨hr1, hr2⟩ := hrace
  have hpt : path ≠ o.tmpName := Ne.symm hf2
  by_cases hpath : path = []
  · unfold writeFileAtomicBytes
    rw [if_pos hpath]
    exact Or.inl rfl
  unfold writeFileAtomicBytes at hfail ⊢
  rw [if_neg hpath] at hfail ⊢
  cases hver : verifyDirNoSymlink fs path.dropLast with
  | some q => exact Or.inl rfl
  | none =>
  cases hval : validateDest fs path overwrite with
  | some e2 => exact Or.inl rfl
  | none =>
  cases hst : stage o fs data perm with
  | error efs =>
    obtain ⟨e2, fsE⟩ := efs
    obtain ⟨hE1, hE2⟩ := stage_error_inv o fs data perm e2 fsE hst hf1
    exact Or.inl (hE2 path hpt)
  | ok fs1 =>
  rw [hver, hval, hst] at hfail
  obtain ⟨htmp1, hother1⟩ := stage_ok_inv o fs data perm fs1 hst
  have hfs1p : fsLookup fs1 path = fsLookup fs path := hother1 path hpt
  simp only [hr1] at hfail ⊢
  cases how : overwrite with
  | true =>
    rw [how] at hfail
    simp only [eq_self_iff_true, if_true] at hfail ⊢
    unfold commitOverwrite at hfail ⊢
    simp only [eq_self_iff_true, if_true] at hfail ⊢
    cases hw : windows with
    | false =>
      rw [hw] at hfail
      simp only [Bool.false_eq_true, if_false] at hfail ⊢
      cases hpr : o.posixRenameErr with
      | none =>
        rw [hpr] at hfail
        simp at hfail
      | some s =>
        rw [hpr] at hfail
        refine Or.inl ?_
        rw [fsLookup_remove, if_neg hpt]
        exact hfs1p
    | true =>
      rw [hw] at hfail
      simp only [eq_self_iff_true, if_true] at hfail ⊢
      obtain ⟨_, ihsome, _⟩ := winLoopAux_spec o.winRenameErr o.tmpName path _
        hf2 [0, 1, 2, 3, 4, 5] fs1 none htmp1
      cases he : (winLoop o.winRenameErr fs1 o.tmpName path
          [0, 1, 2, 3, 4, 5]).err with
      | none =>
        rw [he] at hfail
        simp at hfail
      | some s =>
        rw [he] at hfail
        refine Or.inr ⟨trivial, trivial, ?_⟩
        obtain ⟨_, _, hpl⟩ := ihsome s he
        rw [fsLookup_remove, if_neg hpt]
        exact hpl (by simp)
  | false =>
    rw [how] at hfail
    simp only [Bool.false_eq_true, if_false] at hfail ⊢
    cases hw : windows with
    | true =>
      rw [hw] at hfail
      simp only [eq_self_iff_true, if_true] at hfail ⊢
      unfold commitNoOverwriteWindows at hfail ⊢
      by_cases hpp : (fsLookup fs1 path).isSome
      · rw [if_pos hpp] at hfail ⊢
        refine Or.inl ?_
        rw [fsLookup_remove, if_neg hpt]
        exact hfs1p
      · rw [if_neg hpp] at hfail ⊢
        cases hwr : o.winNoRenameErr with
        | none =>
          rw [hwr] at hfail
          simp at hfail
        | some s =>
          rw [hwr] at hfail
          refine Or.inl ?_
          rw [fsLookup_remove, if_neg hpt]
          exact hfs1p
    | false =>
      rw [hw] at hfail
      simp only [Bool.false_eq_true, if_false] at hfail ⊢
      unfold commitNoOverwriteUnix at hfail ⊢
      by_cases hpp : (fsLookup fs1 path).isSome
      · rw [if_pos hpp] at hfail ⊢
        refine Or.inl ?_
        rw [fsLookup_remove, if_neg hpt]
        exact hfs1p
      · rw [if_neg hpp] at hfail ⊢
        have hp1none : fsLookup fs1 path = none :=
          Option.not_isSome_iff_eq_none.mp hpp
        have hpnone : fsLookup fs path = none := by
          rw [← hfs1p]
          exact hp1none
        cases hle : o.linkErr with
        | none =>
          rw [hle] at hfail
          rw [htmp1] at hfail
          simp at hfail
        | some s =>
          rw [hle] at hfail
          simp only [hr2] at hfail ⊢
          rw [if_neg hpp] at hfail ⊢
          cases hoe : o.openExclErr with
          | some s2 =>
            rw [hoe] at hfail
            refine Or.inl ?_
            rw [fsLookup_remove, if_neg hpt]
            exact hfs1p
          | none =>
            rw [hoe] at hfail
            simp only at hfail ⊢
            cases hot : o.openTmpErr with
            | some s2 =>
              rw [hot] at hfail
              refine Or.inl ?_
              rw [fsLookup_remove, if_neg hpt, fsLookup_remove, if_pos rfl,
                hpnone]
            | none =>
              rw [hot] at hfail
              cases hcp : o.copyErr with
              | some ks =>
                obtain ⟨k2, s2⟩ := ks
                rw [hcp] at hfail
                refine Or.inl ?_
                rw [fsLookup_remove, if_neg hpt, fsLookup_remove, if_pos rfl,
                  hpnone]
              | none =>
                rw [hcp] at hfail
                cases hos : o.outSyncErr with
                | some s2 =>
                  rw [hos] at hfail
                  refine Or.inl ?_
                  rw [fsLookup_remove, if_neg hpt, fsLookup_remove, if_pos rfl,
                    hpnone]
                | none =>
                  rw [hos] at hfail
                  cases hoc : o.outCloseErr with
                  | some s2 =>
                    rw [hoc] at hfail
                    refine Or.inl ?_
                    rw [fsLookup_remove, if_neg hpt, fsLookup_remove,
                      if_pos rfl, hpnone]
                  | none =>
                    rw [hoc] at hfail
                    simp at hfail

theorem c1_failure_leaves_destination_witness :
    freshTmp { tmpName := ["t"], syncErr := some "eio" }
        [((["d"] : Path), FSEntry.regular [9] 420)] ["d"] ∧
      noRace { tmpName := ["t"], syncErr := some "eio" } ∧
      (writeFileAtomicBytes false { tmpName := ["t"], syncErr := some "eio" }
        [((["d"] : Path), FSEntry.regular [9] 420)] ["d"] [1, 2] 384
        true).res = .error (.ioError "eio") ∧
      (fsLookup (writeFileAtomicBytes false
          { tmpName := ["t"], syncErr := some "eio" }
          [((["d"] : Path), FSEntry.regular [9] 420)] ["d"] [1, 2] 384
          true).fs ["d"] =
          fsLookup [((["d"] : Path), FSEntry.regular [9] 420)] ["d"] ∨
        (false = true ∧ true = true ∧
          fsLookup (writeFileAtomicBytes false
            { tmpName := ["t"], syncErr := some "eio" }
            [((["d"] : Path), FSEntry.regular [9] 420)] ["d"] [1, 2] 384
            true).fs ["d"] = none)) :=
  ⟨by decide, by decide, by rfl,
    c1_failure_leaves_destination false { tmpName := ["t"], syncErr := some "eio" }
      [((["d"] : Path), FSEntry.regular [9] 420)] ["d"] [1, 2] 384 true
      (.ioError "eio") (by decide) (by decide) (by rfl)⟩

end Fileutil
